import Mathlib

/- Formal model of the safe-write Go package: crash- and concurrency-safe file
   writes built from a temporary file and a pair of hard-linked names (the
   public name and the shadow name, which is the public name with ".1"
   appended).  The filesystem is modelled as a flat table of directory entries
   (name to inode or directory) together with an inode table (inode number to
   byte contents); a hard link is two directory entries holding the same inode
   number.  Each composite operation additionally returns the list of
   intermediate filesystem states, one after every OS call it performs, so that
   an interruption (crash) after any prefix of the operation is a member of
   that trace. -/

/-- Bytes of a file, one natural number per byte. -/
abbrev Bytes := List Nat

/-- Inode numbers. -/
abbrev Ino := Nat

/-- Error conditions as distinguished by the Go code: errors for which
os.IsNotExist is true, errors for which os.IsExist is true, and every other
I/O error (EISDIR, EPERM, ENOTEMPTY, ...), which the package never branches
on and always propagates. -/
inductive FsError where
  | notExist
  | isExist
  | other
  deriving DecidableEq

/-- A directory entry: a hard link to an inode, or a directory. -/
inductive Entry where
  | file (ino : Ino)
  | dir
  deriving DecidableEq

/-- Look up the first binding of a key in an association list. -/
def lookupKey {κ α : Type} [DecidableEq κ] (k : κ) : List (κ × α) → Option α
  | [] => none
  | (k', v) :: l => if k' = k then some v else lookupKey k l

/-- Remove the binding of a key from an association list.  A real directory
holds at most one entry per name, so removing every pair with the key is the
same as removing the entry. -/
def removeKey {κ α : Type} [DecidableEq κ] (k : κ) (l : List (κ × α)) : List (κ × α) :=
  l.filter (fun p => decide (p.1 ≠ k))

/-- The filesystem: directory entries, inode contents, and the next fresh
inode number. -/
structure FS where
  dirents : List (String × Entry)
  inodes : List (Ino × Bytes)
  nextIno : Ino
  deriving DecidableEq

/-- Directory entry bound to a name, if any. -/
def FS.lookup (fs : FS) (name : String) : Option Entry :=
  lookupKey name fs.dirents

/-- Parent directory of a relative path: the part before the final slash, or
none for a bare name. -/
def parentDir (s : String) : Option String :=
  let r := s.data.reverse
  if r.contains '/' then
    some (String.mk ((r.dropWhile (fun c => decide (c ≠ '/'))).drop 1).reverse)
  else none

/-- Whether a name denotes a directory that still has entries inside it. -/
def FS.isNonemptyDir (fs : FS) (name : String) : Bool :=
  fs.dirents.any (fun p => decide (parentDir p.1 = some name))

/-- Contents of an inode (missing inodes read as empty). -/
def FS.readInode (fs : FS) (i : Ino) : Bytes :=
  (lookupKey i fs.inodes).getD []

/-- Replace the contents of an inode. -/
def FS.setInode (fs : FS) (i : Ino) (d : Bytes) : FS :=
  { fs with inodes := (i, d) :: removeKey i fs.inodes }

/-- Models os.Remove: unlink a file or remove an empty directory.  A missing
name is ENOENT; a non-empty directory is ENOTEMPTY (an error the package
treats as fatal). -/
def osRemove (fs : FS) (name : String) : FS × Except FsError Unit :=
  match fs.lookup name with
  | none => (fs, .error .notExist)
  | some Entry.dir =>
    if fs.isNonemptyDir name then (fs, .error .other)
    else ({ fs with dirents := removeKey name fs.dirents }, .ok ())
  | some (Entry.file _) => ({ fs with dirents := removeKey name fs.dirents }, .ok ())

/-- Models os.Link: create a hard link newname to the inode of oldname.
A missing oldname is ENOENT, an existing newname is EEXIST, and a directory
oldname is EPERM (hard links to directories are not allowed). -/
def osLink (fs : FS) (oldname newname : String) : FS × Except FsError Unit :=
  match fs.lookup oldname with
  | none => (fs, .error .notExist)
  | some Entry.dir => (fs, .error .other)
  | some (Entry.file i) =>
    match fs.lookup newname with
    | some _ => (fs, .error .isExist)
    | none => ({ fs with dirents := (newname, Entry.file i) :: fs.dirents }, .ok ())

/-- Whether the parent directory of a path exists, as required by os.Create. -/
def createDirOk (fs : FS) (name : String) : Bool :=
  match parentDir name with
  | none => true
  | some p => decide (fs.lookup p = some Entry.dir)

/-- Models os.Create: create a file, or truncate an existing one in place
(keeping its inode, and hence every hard link to it).  Creating over a
directory is EISDIR; a missing parent directory is ENOENT.  Returns the inode
standing for the open file descriptor. -/
def osCreate (fs : FS) (name : String) : FS × Except FsError Ino :=
  match fs.lookup name with
  | some Entry.dir => (fs, .error .other)
  | some (Entry.file i) => (fs.setInode i [], .ok i)
  | none =>
    if createDirOk fs name then
      ({ dirents := (name, Entry.file fs.nextIno) :: fs.dirents,
         inodes := (fs.nextIno, []) :: fs.inodes,
         nextIno := fs.nextIno + 1 }, .ok fs.nextIno)
    else (fs, .error .notExist)

/-- Models ioutil.ReadFile: the whole contents of the file bound to a name.
A missing name is ENOENT; a directory reads as EISDIR. -/
def ioutilReadFile (fs : FS) (name : String) : Except FsError Bytes :=
  match fs.lookup name with
  | none => .error .notExist
  | some Entry.dir => .error .other
  | some (Entry.file i) => .ok (fs.readInode i)

/-- Models Go time.Time at the resolution the package's timestamp format can
observe: calendar fields plus the nanoseconds within the second that
time.Now carries. -/
structure GoTime where
  year : Nat
  month : Nat
  day : Nat
  hour : Nat
  minute : Nat
  sec : Nat
  nano : Nat
  deriving DecidableEq

/-- Fixed-width zero-padded decimal rendering of a field, most significant
digit first, as Go's reference layout prints in-range time fields. -/
def padDigits : Nat → Nat → List Char
  | 0, _ => []
  | w + 1, n => padDigits w (n / 10) ++ [Nat.digitChar (n % 10)]

/-- The characters of t.Format(TimestampFormat): the layout
".2006-01-02T15-04-05.000000", whose fractional part truncates the
nanoseconds to microseconds. -/
def fmtTimestampChars (t : GoTime) : List Char :=
  ['.'] ++ padDigits 4 t.year ++ ['-'] ++ padDigits 2 t.month ++ ['-'] ++ padDigits 2 t.day ++
  ['T'] ++ padDigits 2 t.hour ++ ['-'] ++ padDigits 2 t.minute ++ ['-'] ++ padDigits 2 t.sec ++
  ['.'] ++ padDigits 6 (t.nano / 1000)

/-- Models t.Format(TimestampFormat). -/
def fmtTimestamp (t : GoTime) : String :=
  String.mk (fmtTimestampChars t)

/-- The shadow-name suffix, const AltNamePostfix = ".1" in the source. -/
def AltNamePostfix : String := ".1"

/-- The Go layout string, const TimestampFormat in the source; fmtTimestamp
implements formatting with this layout. -/
def TimestampFormat : String := ".2006-01-02T15-04-05.000000"

/-- The temporary-file name used by WriteFilePerm for a call observing time
t: the public name with the formatted timestamp appended. -/
def tmpName (name : String) (t : GoTime) : String :=
  name ++ fmtTimestamp t

/-- One OS call performed by the writer, recorded in execution traces. -/
inductive WOp where
  | createOp (name : String)
  | chmodOp (name : String)
  | writeOp (name : String)
  | syncOp (name : String)
  | rmOp (name : String)
  | lnOp (oldname newname : String)
  deriving DecidableEq

/-- One step performed by the reader.  The sleep constructor is the
vocabulary for an inter-round delay; the code as written never performs it. -/
inductive ReadOp where
  | readPub
  | readAlt
  | sleep
  deriving DecidableEq

namespace Safe

/-- Embeds the Go helper remove: os.Remove with NotExist errors ignored. -/
def remove (fs : FS) (name : String) : FS × Except FsError Unit :=
  match osRemove fs name with
  | (fs1, .error FsError.notExist) => (fs1, .ok ())
  | (fs1, r) => (fs1, r)

/-- Embeds RemoveFile: remove the public name; if that reports an error,
return it at once; otherwise remove the shadow name. -/
def RemoveFile (fs : FS) (name : String) : FS × Except FsError Unit :=
  let alt := name ++ AltNamePostfix
  match remove fs name with
  | (fs1, .error e) => (fs1, .error e)
  | (fs1, .ok _) => remove fs1 alt

/-- Embeds the loop body sequencing of ReadFile for a fixed filesystem: read
the public name, return unless the error is NotExist; read the shadow name
under the same rule; otherwise run the remaining rounds.  When every round
fails, the value returned is the last NotExist error observed. -/
def readRounds (fs : FS) (name alt : String) : Nat → Except FsError Bytes × List ReadOp
  | 0 => (.error .notExist, [])
  | n + 1 =>
    match ioutilReadFile fs name with
    | .error FsError.notExist =>
      match ioutilReadFile fs alt with
      | .error FsError.notExist =>
        let (r, ops) := readRounds fs name alt n
        (r, ReadOp.readPub :: ReadOp.readAlt :: ops)
      | r => (r, [ReadOp.readPub, ReadOp.readAlt])
    | r => (r, [ReadOp.readPub])

/-- Embeds ReadFile: three rounds of public-then-shadow reads.  The second
component lists the steps performed: the loop body contains no sleep or
other delay between rounds. -/
def ReadFile (fs : FS) (name : String) : Except FsError Bytes × List ReadOp :=
  readRounds fs name (name ++ AltNamePostfix) 3

/-- Matches the Go guard after the os.Remove inside link: abort when the
remove error is set and is not a NotExist error. -/
def linkAbort : Except FsError Unit → Bool
  | .error FsError.notExist => false
  | .error _ => true
  | .ok _ => false

/-- Matches the Go guard after the os.Link inside link: NotExist (the source
vanished) and IsExist (the target appeared) both count as success. -/
def squashLink : Except FsError Unit → Except FsError Unit
  | .error FsError.notExist => .ok ()
  | .error FsError.isExist => .ok ()
  | r => r

/-- Embeds the Go helper link: remove newname (NotExist ignored, any other
error fatal), then hard-link oldname to newname (NotExist and IsExist both
treated as success, any other error fatal).  The middle component is the
trace of states after each OS call. -/
def link (fs : FS) (oldname newname : String) : FS × List (WOp × FS) × Except FsError Unit :=
  let (fs1, r1) := osRemove fs newname
  if linkAbort r1 then
    (fs1, [(WOp.rmOp newname, fs1)], r1)
  else
    let (fs2, r2) := osLink fs1 oldname newname
    (fs2, [(WOp.rmOp newname, fs1), (WOp.lnOp oldname newname, fs2)], squashLink r2)

/-- Embeds the Go helper safelink: link the shadow name onto the public name
(recovery for a previously interrupted writer), link the temporary file onto
the shadow name, then link the shadow name onto the public name.  The first
failure aborts. -/
def safelink (fs : FS) (tmpname altname name : String) : FS × List (WOp × FS) × Except FsError Unit :=
  let (fs1, t1, r1) := link fs altname name
  match r1 with
  | .error e => (fs1, t1, .error e)
  | .ok _ =>
    let (fs2, t2, r2) := link fs1 tmpname altname
    match r2 with
    | .error e => (fs2, t1 ++ t2, .error e)
    | .ok _ =>
      let (fs3, t3, r3) := link fs2 altname name
      (fs3, t1 ++ t2 ++ t3, r3)

/-- Embeds the Go helper write: os.Create the file (truncating in place if it
exists), chmod it, write the data, and sync.  Chmod is metadata-only (the
model does not track permission bits), the data write replaces the freshly
truncated contents, and sync is the durability point; in the model each of
these succeeds, while creation can fail (EISDIR, or ENOENT for a missing
parent directory), in which case nothing is written. -/
def write (fs : FS) (name : String) (perm : Nat) (data : Bytes) : FS × List (WOp × FS) × Except FsError Unit :=
  match osCreate fs name with
  | (fs1, .error e) => (fs1, [(WOp.createOp name, fs1)], .error e)
  | (fs1, .ok i) =>
    let fs2 := fs1.setInode i data
    (fs2, [(WOp.createOp name, fs1), (WOp.chmodOp name, fs1),
           (WOp.writeOp name, fs2), (WOp.syncOp name, fs2)], .ok ())

/-- Embeds WriteFilePerm for a call observing time t: write the temporary
file; on failure remove it (the deferred os.Remove, its error discarded) and
return the error; on success run safelink and then remove the temporary
file, returning the safelink result. -/
def WriteFilePerm (fs : FS) (name : String) (perm : Nat) (t : GoTime) (data : Bytes) :
    FS × List (WOp × FS) × Except FsError Unit :=
  let tmp := tmpName name t
  let alt := name ++ AltNamePostfix
  let (fs1, t1, r1) := write fs tmp perm data
  match r1 with
  | .error e =>
    let (fs2, _) := osRemove fs1 tmp
    (fs2, t1 ++ [(WOp.rmOp tmp, fs2)], .error e)
  | .ok _ =>
    let (fs2, t2, r2) := safelink fs1 tmp alt name
    let (fs3, _) := osRemove fs2 tmp
    (fs3, t1 ++ t2 ++ [(WOp.rmOp tmp, fs3)], r2)

/-- Embeds WriteFile: WriteFilePerm with mode 0600. -/
def WriteFile (fs : FS) (name : String) (t : GoTime) (data : Bytes) :
    FS × List (WOp × FS) × Except FsError Unit :=
  WriteFilePerm fs name 0o600 t data

end Safe

/-- Unlinking a name, as a state transformer. -/
def FS.rm (fs : FS) (k : String) : FS :=
  { fs with dirents := removeKey k fs.dirents }

/-- Adding a hard link, as a state transformer. -/
def FS.addF (fs : FS) (k : String) (i : Ino) : FS :=
  { fs with dirents := (k, Entry.file i) :: fs.dirents }

section AssocLemmas

variable {κ α : Type} [DecidableEq κ]

@[simp] theorem lookupKey_nil (k : κ) : lookupKey k ([] : List (κ × α)) = none := rfl

@[simp] theorem lookupKey_cons_self (k : κ) (v : α) (l : List (κ × α)) :
    lookupKey k ((k, v) :: l) = some v := by simp [lookupKey]

theorem lookupKey_cons_ne {k k' : κ} (h : k' ≠ k) (v : α) (l : List (κ × α)) :
    lookupKey k ((k', v) :: l) = lookupKey k l := by simp [lookupKey, h]

theorem removeKey_cons (k k' : κ) (v : α) (l : List (κ × α)) :
    removeKey k ((k', v) :: l) =
      if k' = k then removeKey k l else (k', v) :: removeKey k l := by
  by_cases h : k' = k <;> simp [removeKey, List.filter_cons, h]

@[simp] theorem lookupKey_removeKey_self (k : κ) (l : List (κ × α)) :
    lookupKey k (removeKey k l) = none := by
  induction l with
  | nil => rfl
  | cons p l ih =>
    obtain ⟨k', v⟩ := p
    rw [removeKey_cons]
    by_cases h : k' = k
    · simpa [h] using ih
    · rw [if_neg h, lookupKey_cons_ne h]
      exact ih

theorem lookupKey_removeKey_ne {k k' : κ} (h : k' ≠ k) (l : List (κ × α)) :
    lookupKey k' (removeKey k l) = lookupKey k' l := by
  induction l with
  | nil => rfl
  | cons p l ih =>
    obtain ⟨a, v⟩ := p
    rw [removeKey_cons]
    by_cases h2 : a = k
    · rw [if_pos h2, lookupKey_cons_ne (fun he => h (he.symm.trans h2)), ih]
    · rw [if_neg h2]
      by_cases h3 : a = k'
      · rw [h3, lookupKey_cons_self, lookupKey_cons_self]
      · rw [lookupKey_cons_ne h3, lookupKey_cons_ne h3, ih]

theorem removeKey_of_absent {k : κ} {l : List (κ × α)} (h : lookupKey k l = none) :
    removeKey k l = l := by
  induction l with
  | nil => rfl
  | cons p l ih =>
    obtain ⟨k', v⟩ := p
    by_cases h2 : k' = k
    · subst h2; simp at h
    · rw [removeKey_cons, if_neg h2, ih]
      rwa [lookupKey_cons_ne h2] at h

theorem lookupKey_mem {k : κ} {v : α} {l : List (κ × α)} (h : lookupKey k l = some v) :
    (k, v) ∈ l := by
  induction l with
  | nil => simp [lookupKey] at h
  | cons p l ih =>
    obtain ⟨k', v'⟩ := p
    by_cases h2 : k' = k
    · subst h2
      rw [lookupKey_cons_self] at h
      exact (Option.some.injEq _ _ ▸ h) ▸ List.mem_cons_self _ _
    · rw [lookupKey_cons_ne h2] at h
      exact List.mem_cons_of_mem _ (ih h)

end AssocLemmas

section FSLemmas

@[simp] theorem FS.lookup_rm_self (fs : FS) (k : String) : (fs.rm k).lookup k = none := by
  simp [FS.rm, FS.lookup]

theorem FS.lookup_rm_ne (fs : FS) {k k' : String} (h : k' ≠ k) :
    (fs.rm k).lookup k' = fs.lookup k' := by
  simp [FS.rm, FS.lookup, lookupKey_removeKey_ne h]

@[simp] theorem FS.lookup_addF_self (fs : FS) (k : String) (i : Ino) :
    (fs.addF k i).lookup k = some (Entry.file i) := by
  simp [FS.addF, FS.lookup]

theorem FS.lookup_addF_ne (fs : FS) {k k' : String} (h : k' ≠ k) (i : Ino) :
    (fs.addF k i).lookup k' = fs.lookup k' := by
  simp [FS.addF, FS.lookup, lookupKey_cons_ne (Ne.symm h)]

@[simp] theorem FS.inodes_rm (fs : FS) (k : String) : (fs.rm k).inodes = fs.inodes := rfl

@[simp] theorem FS.inodes_addF (fs : FS) (k : String) (i : Ino) :
    (fs.addF k i).inodes = fs.inodes := rfl

@[simp] theorem FS.readInode_rm (fs : FS) (k : String) (i : Ino) :
    (fs.rm k).readInode i = fs.readInode i := rfl

@[simp] theorem FS.readInode_addF (fs : FS) (k : String) (j i : Ino) :
    (fs.addF k j).readInode i = fs.readInode i := rfl

@[simp] theorem FS.lookup_setInode (fs : FS) (i : Ino) (d : Bytes) (k : String) :
    (fs.setInode i d).lookup k = fs.lookup k := rfl

@[simp] theorem FS.readInode_setInode_self (fs : FS) (i : Ino) (d : Bytes) :
    (fs.setInode i d).readInode i = d := by
  simp [FS.setInode, FS.readInode]

theorem FS.readInode_setInode_ne (fs : FS) {i j : Ino} (h : j ≠ i) (d : Bytes) :
    (fs.setInode i d).readInode j = fs.readInode j := by
  simp [FS.setInode, FS.readInode, lookupKey_cons_ne (Ne.symm h), lookupKey_removeKey_ne h]

theorem FS.rm_of_absent {fs : FS} {k : String} (h : fs.lookup k = none) : fs.rm k = fs := by
  cases fs
  simp only [FS.rm, FS.mk.injEq, and_true, true_and]
  exact removeKey_of_absent h

end FSLemmas

section StringLemmas

theorem string_eq_of_data {s t : String} (h : s.data = t.data) : s = t :=
  String.ext h

theorem append_data_len (s t : String) :
    (s ++ t).data.length = s.data.length + t.data.length := by
  rw [String.data_append, List.length_append]

/-- Strings with a common prefix and suffixes of different lengths differ. -/
theorem append_ne_of_suffix_len {s a b : String} (h : a.data.length ≠ b.data.length) :
    s ++ a ≠ s ++ b := by
  intro he
  apply h
  have hd := congrArg String.data he
  rw [String.data_append, String.data_append] at hd
  rw [List.append_cancel_left hd]

@[simp] theorem padDigits_length (w n : Nat) : (padDigits w n).length = w := by
  induction w generalizing n with
  | zero => rfl
  | succ w ih => simp [padDigits, ih]

@[simp] theorem fmtTimestampChars_length (t : GoTime) :
    (fmtTimestampChars t).length = 27 := by
  simp [fmtTimestampChars]

theorem tmpName_ne_name (name : String) (t : GoTime) : tmpName name t ≠ name := by
  have h : name = name ++ "" := by simp
  rw [tmpName, h]
  rw [show name ++ "" ++ fmtTimestamp t = name ++ fmtTimestamp t by simp]
  apply append_ne_of_suffix_len
  show (fmtTimestamp t).data.length ≠ ("".data).length
  rw [show (fmtTimestamp t).data = fmtTimestampChars t from rfl, fmtTimestampChars_length]
  decide

theorem tmpName_ne_alt (name : String) (t : GoTime) :
    tmpName name t ≠ name ++ AltNamePostfix := by
  apply append_ne_of_suffix_len
  rw [show (fmtTimestamp t).data = fmtTimestampChars t from rfl, fmtTimestampChars_length]
  decide

theorem alt_ne_name (name : String) : name ++ AltNamePostfix ≠ name := by
  intro he
  have h : name ++ AltNamePostfix = name ++ "" := by simpa using he
  exact append_ne_of_suffix_len (by decide) h

end StringLemmas

section PrimitiveLemmas

theorem osRemove_absent {fs : FS} {name : String} (h : fs.lookup name = none) :
    osRemove fs name = (fs, .error .notExist) := by
  simp [osRemove, h]

theorem osRemove_file {fs : FS} {name : String} {i : Ino}
    (h : fs.lookup name = some (Entry.file i)) :
    osRemove fs name = (fs.rm name, .ok ()) := by
  simp [osRemove, h, FS.rm]

theorem osRemove_lookup_preserved (fs : FS) (name : String) {k : String} (h : k ≠ name) :
    ((osRemove fs name).1).lookup k = fs.lookup k := by
  unfold osRemove
  split
  · rfl
  · split
    · rfl
    · exact FS.lookup_rm_ne fs h
  · exact FS.lookup_rm_ne fs h

theorem osRemove_inodes (fs : FS) (name : String) :
    ((osRemove fs name).1).inodes = fs.inodes := by
  unfold osRemove
  split <;> first | rfl | (split <;> rfl)

theorem osLink_ok {fs : FS} {old new : String} {i : Ino}
    (hold : fs.lookup old = some (Entry.file i)) (hnew : fs.lookup new = none) :
    osLink fs old new = (fs.addF new i, .ok ()) := by
  simp [osLink, hold, hnew, FS.addF]

theorem osLink_lookup_preserved (fs : FS) (old new : String) {k : String} (h : k ≠ new) :
    ((osLink fs old new).1).lookup k = fs.lookup k := by
  unfold osLink
  split
  · rfl
  · rfl
  · split
    · rfl
    · exact FS.lookup_addF_ne fs h _

theorem osLink_inodes (fs : FS) (old new : String) :
    ((osLink fs old new).1).inodes = fs.inodes := by
  unfold osLink
  split <;> first | rfl | (split <;> rfl)

end PrimitiveLemmas

section LinkLemmas

/-- Successful run of the link helper when the source is a file and the
target is absent or a file: the target is unlinked, then bound to the
source's inode. -/
theorem link_run {fs : FS} {old new : String} {i : Ino} (hne : old ≠ new)
    (hold : fs.lookup old = some (Entry.file i))
    (hnew : fs.lookup new = none ∨ ∃ j, fs.lookup new = some (Entry.file j)) :
    Safe.link fs old new =
      ((fs.rm new).addF new i,
       [(WOp.rmOp new, fs.rm new), (WOp.lnOp old new, (fs.rm new).addF new i)],
       .ok ()) := by
  rcases hnew with hnone | ⟨j, hfile⟩
  · have hrm : fs.rm new = fs := FS.rm_of_absent hnone
    have hlink : osLink fs old new = (fs.addF new i, .ok ()) := osLink_ok hold hnone
    simp only [Safe.link, osRemove_absent hnone, Safe.linkAbort, Bool.false_eq_true,
      if_false, hlink, Safe.squashLink, hrm]
  · have hold1 : (fs.rm new).lookup old = some (Entry.file i) := by
      rw [FS.lookup_rm_ne fs hne]; exact hold
    have hlink : osLink (fs.rm new) old new = ((fs.rm new).addF new i, .ok ()) :=
      osLink_ok hold1 (FS.lookup_rm_self fs new)
    simp only [Safe.link, osRemove_file hfile, Safe.linkAbort, Bool.false_eq_true,
      if_false, hlink, Safe.squashLink]

/-- The link helper only ever touches the binding of its target name. -/
theorem link_lookup_preserved (fs : FS) (old new : String) {k : String} (h : k ≠ new) :
    ((Safe.link fs old new).1).lookup k = fs.lookup k := by
  unfold Safe.link
  rcases e1 : osRemove fs new with ⟨fs1, r1⟩
  have p1 : fs1.lookup k = fs.lookup k := by
    have := osRemove_lookup_preserved fs new h
    rwa [e1] at this
  by_cases hb : Safe.linkAbort r1
  · simp only [hb, if_true, p1]
  · rcases e2 : osLink fs1 old new with ⟨fs2, r2⟩
    have p2 : fs2.lookup k = fs1.lookup k := by
      have := osLink_lookup_preserved fs1 old new h
      rwa [e2] at this
    simp only [hb, if_false, e2, p2, p1, Bool.false_eq_true]

/-- The link helper never touches inode contents. -/
theorem link_inodes (fs : FS) (old new : String) :
    ((Safe.link fs old new).1).inodes = fs.inodes := by
  unfold Safe.link
  rcases e1 : osRemove fs new with ⟨fs1, r1⟩
  have p1 : fs1.inodes = fs.inodes := by
    have := osRemove_inodes fs new
    rwa [e1] at this
  by_cases hb : Safe.linkAbort r1
  · simp only [hb, if_true, p1]
  · rcases e2 : osLink fs1 old new with ⟨fs2, r2⟩
    have p2 : fs2.inodes = fs1.inodes := by
      have := osLink_inodes fs1 old new
      rwa [e2] at this
    simp only [hb, if_false, e2, p2, p1, Bool.false_eq_true]

/-- When the link helper reports success and its source is a file, the target
ends up hard-linked to the source's inode. -/
theorem link_ok_sets {fs : FS} {old new : String} {i : Ino} (hne : old ≠ new)
    (hold : fs.lookup old = some (Entry.file i))
    (hsucc : (Safe.link fs old new).2.2 = .ok ()) :
    ((Safe.link fs old new).1).lookup new = some (Entry.file i) := by
  cases h2 : fs.lookup new with
  | none =>
    rw [link_run hne hold (Or.inl h2)]
    exact FS.lookup_addF_self _ _ _
  | some e =>
    cases e with
    | file j =>
      rw [link_run hne hold (Or.inr ⟨j, h2⟩)]
      exact FS.lookup_addF_self _ _ _
    | dir =>
      by_cases hd : fs.isNonemptyDir new
      · exfalso
        have e1 : osRemove fs new = (fs, .error .other) := by
          simp [osRemove, h2, hd]
        simp [Safe.link, e1, Safe.linkAbort] at hsucc
      · have e1 : osRemove fs new = (fs.rm new, .ok ()) := by
          simp [osRemove, h2, hd, FS.rm]
        have hold1 : (fs.rm new).lookup old = some (Entry.file i) := by
          rw [FS.lookup_rm_ne fs hne]; exact hold
        have hlink : osLink (fs.rm new) old new = ((fs.rm new).addF new i, .ok ()) :=
          osLink_ok hold1 (FS.lookup_rm_self fs new)
        simp only [Safe.link, e1, Safe.linkAbort, Bool.false_eq_true, if_false, hlink,
          Safe.squashLink]
        exact FS.lookup_addF_self _ _ _

end LinkLemmas

section SafelinkLemmas

/-- When safelink reports success and the temporary file is a file, the
public name ends bound to the temporary file's inode, the temporary name's
binding is untouched, and no inode content changes. -/
theorem safelink_ok {fs : FS} {tmp alt name : String} {i : Ino}
    (h1 : tmp ≠ alt) (h2 : tmp ≠ name) (h3 : alt ≠ name)
    (htmp : fs.lookup tmp = some (Entry.file i))
    (hsucc : (Safe.safelink fs tmp alt name).2.2 = .ok ()) :
    ((Safe.safelink fs tmp alt name).1).lookup name = some (Entry.file i) ∧
    ((Safe.safelink fs tmp alt name).1).lookup tmp = some (Entry.file i) ∧
    ((Safe.safelink fs tmp alt name).1).inodes = fs.inodes := by
  rcases e1 : Safe.link fs alt name with ⟨fs1, t1, r1⟩
  cases r1 with
  | error e => simp [Safe.safelink, e1] at hsucc
  | ok u =>
    have htmp1 : fs1.lookup tmp = some (Entry.file i) := by
      have := link_lookup_preserved fs alt name h2
      rw [e1] at this
      rw [this]; exact htmp
    have hin1 : fs1.inodes = fs.inodes := by
      have := link_inodes fs alt name
      rwa [e1] at this
    rcases e2 : Safe.link fs1 tmp alt with ⟨fs2, t2, r2⟩
    cases r2 with
    | error e => simp [Safe.safelink, e1, e2] at hsucc
    | ok u2 =>
      have halt2 : fs2.lookup alt = some (Entry.file i) := by
        have := link_ok_sets h1 htmp1 (by rw [e2])
        rwa [e2] at this
      have htmp2 : fs2.lookup tmp = some (Entry.file i) := by
        have := link_lookup_preserved fs1 tmp alt h1
        rw [e2] at this
        rw [this]; exact htmp1
      have hin2 : fs2.inodes = fs1.inodes := by
        have := link_inodes fs1 tmp alt
        rwa [e2] at this
      rcases e3 : Safe.link fs2 alt name with ⟨fs3, t3, r3⟩
      have hres : Safe.safelink fs tmp alt name = (fs3, t1 ++ t2 ++ t3, r3) := by
        simp [Safe.safelink, e1, e2, e3]
      rw [hres] at hsucc ⊢
      have hname3 : fs3.lookup name = some (Entry.file i) := by
        have := link_ok_sets h3 halt2 (by rw [e3]; exact hsucc)
        rwa [e3] at this
      have htmp3 : fs3.lookup tmp = some (Entry.file i) := by
        have := link_lookup_preserved fs2 alt name h2
        rw [e3] at this
        rw [this]; exact htmp2
      have hin3 : fs3.inodes = fs2.inodes := by
        have := link_inodes fs2 alt name
        rwa [e3] at this
      exact ⟨hname3, htmp3, by rw [hin3, hin2, hin1]⟩

end SafelinkLemmas

section WriteLemmas

/-- The allocated shape of osCreate on a fresh name with an existing parent. -/
def allocFS (fs : FS) (nm : String) : FS :=
  { dirents := (nm, Entry.file fs.nextIno) :: fs.dirents,
    inodes := (fs.nextIno, []) :: fs.inodes,
    nextIno := fs.nextIno + 1 }

theorem osCreate_alloc {fs : FS} {nm : String} (h : fs.lookup nm = none)
    (hd : createDirOk fs nm = true) :
    osCreate fs nm = (allocFS fs nm, .ok fs.nextIno) := by
  simp [osCreate, h, hd, allocFS]

theorem osCreate_trunc {fs : FS} {nm : String} {i : Ino}
    (h : fs.lookup nm = some (Entry.file i)) :
    osCreate fs nm = (fs.setInode i [], .ok i) := by
  simp [osCreate, h]

theorem osCreate_isdir {fs : FS} {nm : String} (h : fs.lookup nm = some Entry.dir) :
    osCreate fs nm = (fs, .error .other) := by
  simp [osCreate, h]

theorem osCreate_badparent {fs : FS} {nm : String} (h : fs.lookup nm = none)
    (hd : createDirOk fs nm = false) :
    osCreate fs nm = (fs, .error .notExist) := by
  simp [osCreate, h, hd]

@[simp] theorem allocFS_lookup_self (fs : FS) (nm : String) :
    (allocFS fs nm).lookup nm = some (Entry.file fs.nextIno) := by
  simp [allocFS, FS.lookup]

theorem allocFS_lookup_ne (fs : FS) {nm k : String} (h : k ≠ nm) :
    (allocFS fs nm).lookup k = fs.lookup k := by
  simp [allocFS, FS.lookup, lookupKey_cons_ne (Ne.symm h)]

/-- When the write helper reports success, the target name is a file holding
exactly the data. -/
theorem write_ok {fs : FS} {nm : String} {perm : Nat} {data : Bytes}
    (hsucc : (Safe.write fs nm perm data).2.2 = .ok ()) :
    ∃ i, ((Safe.write fs nm perm data).1).lookup nm = some (Entry.file i) ∧
         ((Safe.write fs nm perm data).1).readInode i = data := by
  cases hc : fs.lookup nm with
  | none =>
    cases hdir : createDirOk fs nm with
    | true =>
      refine ⟨fs.nextIno, ?_, ?_⟩
      · simp [Safe.write, osCreate_alloc hc hdir]
      · simp [Safe.write, osCreate_alloc hc hdir]
    | false =>
      rw [Safe.write, osCreate_badparent hc hdir] at hsucc
      simp at hsucc
  | some e =>
    cases e with
    | file i =>
      refine ⟨i, ?_, ?_⟩
      · simp [Safe.write, osCreate_trunc hc, hc]
      · simp [Safe.write, osCreate_trunc hc]
    | dir =>
      rw [Safe.write, osCreate_isdir hc] at hsucc
      simp at hsucc

/-- When the write helper fails, the filesystem is unchanged and the trace is
the single failed creation. -/
theorem write_err {fs : FS} {nm : String} {perm : Nat} {data : Bytes} {e : FsError}
    (herr : (Safe.write fs nm perm data).2.2 = .error e) :
    Safe.write fs nm perm data = (fs, [(WOp.createOp nm, fs)], .error e) := by
  cases hc : fs.lookup nm with
  | none =>
    cases hdir : createDirOk fs nm with
    | true =>
      rw [Safe.write, osCreate_alloc hc hdir] at herr
      simp at herr
    | false =>
      rw [Safe.write, osCreate_badparent hc hdir] at herr ⊢
      simp at herr
      simp [herr]
  | some en =>
    cases en with
    | file i =>
      rw [Safe.write, osCreate_trunc hc] at herr
      simp at herr
    | dir =>
      rw [Safe.write, osCreate_isdir hc] at herr ⊢
      simp at herr
      simp [herr]

end WriteLemmas

/-- C2: for every name n and every byte payload d (including the empty
payload), in the absence of concurrent operations: after WriteFile(n, d)
returns success, ReadFile(n) returns d. -/
theorem c2_write_read_roundtrip (fs : FS) (name : String) (t : GoTime) (data : Bytes)
    (hsucc : (Safe.WriteFile fs name t data).2.2 = .ok ()) :
    (Safe.ReadFile ((Safe.WriteFile fs name t data).1) name).1 = .ok data := by
  have hta : tmpName name t ≠ name ++ AltNamePostfix := tmpName_ne_alt name t
  have htn : tmpName name t ≠ name := tmpName_ne_name name t
  have han : name ++ AltNamePostfix ≠ name := alt_ne_name name
  rw [Safe.WriteFile] at hsucc ⊢
  rw [Safe.WriteFilePerm] at hsucc ⊢
  rcases ew : Safe.write fs (tmpName name t) 0o600 data with ⟨fsW, tW, rW⟩
  rw [ew] at hsucc
  dsimp only at hsucc ⊢
  cases rW with
  | error e =>
    dsimp only at hsucc
    simp at hsucc
  | ok u =>
    dsimp only at hsucc ⊢
    have hwok : (Safe.write fs (tmpName name t) 0o600 data).2.2 = .ok () := by
      rw [ew]
    obtain ⟨i, hWl, hWr⟩ := write_ok hwok
    rw [ew] at hWl hWr
    dsimp only at hWl hWr
    obtain ⟨hSn, hSt, hSi⟩ := safelink_ok hta htn han hWl hsucc
    rcases esl : Safe.safelink fsW (tmpName name t) (name ++ AltNamePostfix) name with
      ⟨fsS, tS, rS⟩
    rw [esl] at hSn hSt hSi
    dsimp only at hSn hSt hSi
    dsimp only
    rw [osRemove_file hSt]
    dsimp only
    have hlook : (fsS.rm (tmpName name t)).lookup name = some (Entry.file i) := by
      rw [FS.lookup_rm_ne fsS (Ne.symm htn)]
      exact hSn
    have hri : (fsS.rm (tmpName name t)).readInode i = data := by
      rw [FS.readInode_rm]
      show (lookupKey i fsS.inodes).getD [] = data
      rw [hSi]
      exact hWr
    have hread : ioutilReadFile (fsS.rm (tmpName name t)) name = .ok data := by
      rw [ioutilReadFile, hlook]
      dsimp only
      rw [hri]
    simp [Safe.ReadFile, Safe.readRounds, hread]

/-- Witness for C2 at a concrete input: writing bytes [7, 8] to the name
testfile in the empty filesystem succeeds, and reading it back yields
[7, 8]. -/
theorem c2_witness :
    (Safe.WriteFile ⟨[], [], 0⟩ "testfile" ⟨2021, 1, 2, 3, 4, 5, 678901000⟩ [7, 8]).2.2
        = .ok () ∧
    (Safe.ReadFile ((Safe.WriteFile ⟨[], [], 0⟩ "testfile"
        ⟨2021, 1, 2, 3, 4, 5, 678901000⟩ [7, 8]).1) "testfile").1 = .ok [7, 8] := by
  refine ⟨by rfl, c2_write_read_roundtrip _ _ _ _ (by rfl)⟩

/-- A filesystem with no entries. -/
def emptyFS : FS := ⟨[], [], 0⟩

/-- A reference time for concrete runs. -/
def tRef : GoTime := ⟨2021, 1, 2, 3, 4, 5, 678901000⟩

theorem osRemove_err_state {fs : FS} {nm : String} {e : FsError}
    (h : (osRemove fs nm).2 = .error e) : (osRemove fs nm).1 = fs := by
  cases hc : fs.lookup nm with
  | none => rw [osRemove_absent hc]
  | some en =>
    cases en with
    | file i =>
      rw [osRemove_file hc] at h
      simp at h
    | dir =>
      cases hd : fs.isNonemptyDir nm with
      | true => simp [osRemove, hc, hd]
      | false =>
        rw [osRemove] at h
        simp [hc, hd] at h

/-- C3 (amended): RemoveFile unlinks the Public Name and then the Shadow
Name, treating NotExist as success for each independently, so it returns
success (leaving the filesystem unchanged) when neither exists; but when the
unlink of the Public Name fails with a non-NotExist error, that error is
returned immediately and the removal of the Shadow Name is not attempted
(the filesystem is returned exactly as it was); only when the Public unlink
succeeds or hits NotExist is the Shadow removal performed, and its result
returned. -/
theorem c3_removefile_behavior (fs : FS) (name : String) :
    (fs.lookup name = none ∧ fs.lookup (name ++ AltNamePostfix) = none →
      Safe.RemoveFile fs name = (fs, .ok ())) ∧
    (∀ e, (Safe.remove fs name).2 = .error e →
      Safe.RemoveFile fs name = (fs, .error e)) ∧
    ((Safe.remove fs name).2 = .ok () →
      Safe.RemoveFile fs name =
        Safe.remove (Safe.remove fs name).1 (name ++ AltNamePostfix)) := by
  refine ⟨?_, ?_, ?_⟩
  · rintro ⟨h1, h2⟩
    have r1 : Safe.remove fs name = (fs, .ok ()) := by
      rw [Safe.remove, osRemove_absent h1]
    have r2 : Safe.remove fs (name ++ AltNamePostfix) = (fs, .ok ()) := by
      rw [Safe.remove, osRemove_absent h2]
    rw [Safe.RemoveFile, r1]
    dsimp only
    exact r2
  · intro e he
    have hst : (Safe.remove fs name).1 = fs := by
      rw [Safe.remove] at he ⊢
      rcases er : osRemove fs name with ⟨fs1, r1⟩
      rw [er] at he
      cases r1 with
      | ok u => simp at he
      | error e1 =>
        cases e1 with
        | notExist => simp at he
        | isExist =>
          have := osRemove_err_state (e := FsError.isExist) (by rw [er])
          rw [er] at this
          simpa using this
        | other =>
          have := osRemove_err_state (e := FsError.other) (by rw [er])
          rw [er] at this
          simpa using this
    rw [Safe.RemoveFile]
    rcases er : Safe.remove fs name with ⟨fs1, r1⟩
    rw [er] at he hst
    dsimp only at he hst
    rw [he, hst]
  · intro hok
    rw [Safe.RemoveFile]
    rcases er : Safe.remove fs name with ⟨fs1, r1⟩
    rw [er] at hok
    dsimp only at hok
    rw [hok]

/-- A filesystem in which the public name is a non-empty directory (so its
unlink fails with a fatal error) while the shadow name is an ordinary file. -/
def c3fs : FS :=
  ⟨[("testfile", Entry.dir), ("testfile/somefile", Entry.file 0),
    ("testfile.1", Entry.file 1)], [(0, []), (1, [5])], 2⟩

/-- C3 counterexample: when unlinking the Public Name fails with a
non-NotExist error (here: it is a non-empty directory), RemoveFile returns
that error but never attempts the removal of the Shadow Name, which is left
bound: the claim asserts the other name's removal is still attempted before
returning, which would have removed testfile.1. -/
theorem c3_counterexample :
    (Safe.RemoveFile c3fs "testfile").2 = .error FsError.other ∧
    ((Safe.RemoveFile c3fs "testfile").1).lookup "testfile.1" = some (Entry.file 1) ∧
    c3fs.lookup "testfile.1" = some (Entry.file 1) :=
  ⟨rfl, rfl, rfl⟩

/-- Spec-side restatement of C4's description of the Link Primitive, second
half: create the hard link from old to new; the "old no longer exists" and
"new already exists" outcomes are successes; any other link error is
returned. -/
def linkCreateStep (fs1 : FS) (oldname newname : String) :
    FS × List (WOp × FS) × Except FsError Unit :=
  let (fs2, r2) := osLink fs1 oldname newname
  let r : Except FsError Unit :=
    match r2 with
    | .error FsError.notExist => .ok ()
    | .error FsError.isExist => .ok ()
    | .error e => .error e
    | .ok _ => .ok ()
  (fs2, [(WOp.rmOp newname, fs1), (WOp.lnOp oldname newname, fs2)], r)

/-- Spec-side restatement of C4's description of the Link Primitive: first
unlink new, treating "does not exist" as success and returning any other
unlink error; then the link step. -/
def linkSpec (fs : FS) (oldname newname : String) :
    FS × List (WOp × FS) × Except FsError Unit :=
  let (fs1, r1) := osRemove fs newname
  match r1 with
  | .error FsError.notExist => linkCreateStep fs1 oldname newname
  | .error e => (fs1, [(WOp.rmOp newname, fs1)], .error e)
  | .ok _ => linkCreateStep fs1 oldname newname

/-- C4: the Link Primitive link(old, new) first unlinks new, treating "does
not exist" as success and returning any other unlink error; it then creates
the hard link from old to new, treating both the "old no longer exists" and
the "new already exists" outcomes as success, and returning any other link
error.  Stated as: the code's link helper equals the spec's description. -/
theorem c4_link_primitive (fs : FS) (oldname newname : String) :
    Safe.link fs oldname newname = linkSpec fs oldname newname := by
  unfold Safe.link linkSpec linkCreateStep
  rcases e1 : osRemove fs newname with ⟨fs1, r1⟩
  cases r1 with
  | ok u =>
    dsimp only
    rcases e2 : osLink fs1 oldname newname with ⟨fs2, r2⟩
    cases r2 with
    | ok u2 => rfl
    | error e => cases e <;> rfl
  | error e =>
    cases e with
    | notExist =>
      dsimp only
      rcases e3 : osLink fs1 oldname newname with ⟨fs2, r2⟩
      cases r2 with
      | ok u2 => rfl
      | error ec => cases ec <;> rfl
    | isExist => rfl
    | other => rfl

/-- C5: ReadFile attempts the Public Name first and returns immediately on
success or on any error other than not-exist; on not-exist it attempts the
Shadow Name under the same rule; it repeats this two-name attempt for at
most 3 total rounds, after which it returns the last not-exist error
observed; and when only the Shadow Name exists as a file, ReadFile returns
its contents. -/
theorem c5_readfile_behavior (fs : FS) (name : String) :
    (ioutilReadFile fs name ≠ .error FsError.notExist →
      Safe.ReadFile fs name = (ioutilReadFile fs name, [ReadOp.readPub])) ∧
    (ioutilReadFile fs name = .error FsError.notExist →
     ioutilReadFile fs (name ++ AltNamePostfix) ≠ .error FsError.notExist →
      Safe.ReadFile fs name =
        (ioutilReadFile fs (name ++ AltNamePostfix), [ReadOp.readPub, ReadOp.readAlt])) ∧
    (ioutilReadFile fs name = .error FsError.notExist →
     ioutilReadFile fs (name ++ AltNamePostfix) = .error FsError.notExist →
      Safe.ReadFile fs name = (.error FsError.notExist,
        [ReadOp.readPub, ReadOp.readAlt, ReadOp.readPub, ReadOp.readAlt,
         ReadOp.readPub, ReadOp.readAlt])) ∧
    (∀ i, fs.lookup name = none →
      fs.lookup (name ++ AltNamePostfix) = some (Entry.file i) →
      (Safe.ReadFile fs name).1 = .ok (fs.readInode i)) := by
  refine ⟨?_, ?_, ?_, ?_⟩
  · intro h
    rcases hr : ioutilReadFile fs name with e | d
    · cases e with
      | notExist => exact absurd hr h
      | isExist => simp [Safe.ReadFile, Safe.readRounds, hr]
      | other => simp [Safe.ReadFile, Safe.readRounds, hr]
    · simp [Safe.ReadFile, Safe.readRounds, hr]
  · intro h1 h2
    rcases hr : ioutilReadFile fs (name ++ AltNamePostfix) with e | d
    · cases e with
      | notExist => exact absurd hr h2
      | isExist => simp [Safe.ReadFile, Safe.readRounds, h1, hr]
      | other => simp [Safe.ReadFile, Safe.readRounds, h1, hr]
    · simp [Safe.ReadFile, Safe.readRounds, h1, hr]
  · intro h1 h2
    simp [Safe.ReadFile, Safe.readRounds, h1, h2]
  · intro i h1 h2
    have hr : ioutilReadFile fs name = .error .notExist := by
      rw [ioutilReadFile, h1]
    have ha : ioutilReadFile fs (name ++ AltNamePostfix) = .ok (fs.readInode i) := by
      rw [ioutilReadFile, h2]
    simp [Safe.ReadFile, Safe.readRounds, hr, ha]

/-- A filesystem in which only the shadow name testfile.1 exists, holding
byte 88 (the character X). -/
def c5fs : FS := ⟨[("testfile.1", Entry.file 0)], [(0, [88])], 1⟩

/-- Witness for C5 at a concrete input: with only testfile.1 present holding
[88], ReadFile of testfile returns [88]. -/
theorem c5_witness : (Safe.ReadFile c5fs "testfile").1 = .ok [88] := by
  have h := (c5_readfile_behavior c5fs "testfile").2.2.2 0 (by rfl) (by rfl)
  exact h

/-- C6: evaluated at the failing input (neither testfile nor testfile.1
exists), ReadFile performs exactly six reads, two per round with no sleep or
delay step anywhere between them, and returns the NotExist error; the
package's own test instead expects a file created 10 milliseconds into the
call to be found within the retry window. -/
theorem c6_no_delay_between_rounds :
    Safe.ReadFile emptyFS "testfile" =
      (.error FsError.notExist,
       [ReadOp.readPub, ReadOp.readAlt, ReadOp.readPub, ReadOp.readAlt,
        ReadOp.readPub, ReadOp.readAlt]) ∧
    ReadOp.sleep ∉ (Safe.ReadFile emptyFS "testfile").2 :=
  ⟨rfl, by decide⟩

/-- Witness for C3 at a concrete input: removing a name from the empty
filesystem, where neither the public nor the shadow name exists, succeeds
and leaves the filesystem unchanged. -/
theorem c3_witness : Safe.RemoveFile emptyFS "testfile" = (emptyFS, .ok ()) :=
  (c3_removefile_behavior emptyFS "testfile").1 ⟨rfl, rfl⟩

/-- The safelink helper only ever touches the bindings of the shadow and
public names, in every outcome. -/
theorem safelink_lookup_preserved (fs : FS) (tmp alt name : String) {k : String}
    (h1 : k ≠ alt) (h2 : k ≠ name) :
    ((Safe.safelink fs tmp alt name).1).lookup k = fs.lookup k := by
  rcases e1 : Safe.link fs alt name with ⟨fs1, t1, r1⟩
  have p1 : fs1.lookup k = fs.lookup k := by
    have := link_lookup_preserved fs alt name h2
    rwa [e1] at this
  cases r1 with
  | error e => simp [Safe.safelink, e1, p1]
  | ok u =>
    rcases e2 : Safe.link fs1 tmp alt with ⟨fs2, t2, r2⟩
    have p2 : fs2.lookup k = fs1.lookup k := by
      have := link_lookup_preserved fs1 tmp alt h1
      rwa [e2] at this
    cases r2 with
    | error e => simp [Safe.safelink, e1, e2, p2, p1]
    | ok u2 =>
      rcases e3 : Safe.link fs2 alt name with ⟨fs3, t3, r3⟩
      have p3 : fs3.lookup k = fs2.lookup k := by
        have := link_lookup_preserved fs2 alt name h2
        rwa [e3] at this
      simp [Safe.safelink, e1, e2, e3, p3, p2, p1]

/-- Decomposition of WriteFilePerm on the path where the temporary-file
write fails: the deferred removal of the temporary name runs on the
unchanged filesystem, and the error is returned after a trace of exactly
the failed creation and that removal. -/
theorem WriteFilePerm_err_eq {fs : FS} {name : String} {perm : Nat} {t : GoTime}
    {data : Bytes} {e : FsError}
    (he : (Safe.write fs (tmpName name t) perm data).2.2 = .error e) :
    Safe.WriteFilePerm fs name perm t data =
      ((osRemove fs (tmpName name t)).1,
       [(WOp.createOp (tmpName name t), fs),
        (WOp.rmOp (tmpName name t), (osRemove fs (tmpName name t)).1)],
       .error e) := by
  have hw := write_err he
  rw [Safe.WriteFilePerm, hw]
  dsimp only
  rcases er : osRemove fs (tmpName name t) with ⟨fs2, ru⟩
  rfl

/-- Decomposition of WriteFilePerm on the path where the temporary-file
write succeeds: safelink runs, then the temporary name is removed, and
safelink's result is returned. -/
theorem WriteFilePerm_ok_eq {fs : FS} {name : String} {perm : Nat} {t : GoTime}
    {data : Bytes}
    (hw : (Safe.write fs (tmpName name t) perm data).2.2 = .ok ()) :
    Safe.WriteFilePerm fs name perm t data =
      ((osRemove (Safe.safelink (Safe.write fs (tmpName name t) perm data).1
          (tmpName name t) (name ++ AltNamePostfix) name).1 (tmpName name t)).1,
       (Safe.write fs (tmpName name t) perm data).2.1 ++
         (Safe.safelink (Safe.write fs (tmpName name t) perm data).1
           (tmpName name t) (name ++ AltNamePostfix) name).2.1 ++
         [(WOp.rmOp (tmpName name t),
           (osRemove (Safe.safelink (Safe.write fs (tmpName name t) perm data).1
             (tmpName name t) (name ++ AltNamePostfix) name).1 (tmpName name t)).1)],
       (Safe.safelink (Safe.write fs (tmpName name t) perm data).1
         (tmpName name t) (name ++ AltNamePostfix) name).2.2) := by
  rw [Safe.WriteFilePerm]
  rcases ew : Safe.write fs (tmpName name t) perm data with ⟨fsW, tW, rW⟩
  rw [ew] at hw
  dsimp only at hw
  subst hw
  dsimp only

/-- C7: if preparing the Temporary File (creating, chmodding, writing, or
syncing it) fails — for example because the target directory does not
exist — WriteFilePerm returns that error, performs no link call, and both
the Public and Shadow Names (bindings and contents) remain exactly as they
were before the call. -/
theorem c7_write_failure_no_link (fs : FS) (name : String) (perm : Nat) (t : GoTime)
    (data : Bytes) (e : FsError)
    (herr : (Safe.write fs (tmpName name t) perm data).2.2 = .error e) :
    (Safe.WriteFilePerm fs name perm t data).2.2 = .error e ∧
    ((Safe.WriteFilePerm fs name perm t data).1).lookup name = fs.lookup name ∧
    ((Safe.WriteFilePerm fs name perm t data).1).lookup (name ++ AltNamePostfix)
      = fs.lookup (name ++ AltNamePostfix) ∧
    ((Safe.WriteFilePerm fs name perm t data).1).inodes = fs.inodes ∧
    ∀ p ∈ (Safe.WriteFilePerm fs name perm t data).2.1,
      ∀ o n, p.1 ≠ WOp.lnOp o n := by
  rw [WriteFilePerm_err_eq herr]
  refine ⟨rfl, ?_, ?_, ?_, ?_⟩
  · exact osRemove_lookup_preserved fs (tmpName name t) (Ne.symm (tmpName_ne_name name t))
  · exact osRemove_lookup_preserved fs (tmpName name t) (Ne.symm (tmpName_ne_alt name t))
  · exact osRemove_inodes fs (tmpName name t)
  · intro p hp o n
    simp only [List.mem_cons, List.not_mem_nil, or_false] at hp
    rcases hp with hp | hp
    · simp [hp]
    · simp [hp]

/-- Witness for C7 at a concrete input: writing to missing/dir/n in the
empty filesystem (the target directory is absent) fails with a
NotExist-class error, performs no link, and leaves both names absent. -/
theorem c7_witness :
    (Safe.WriteFilePerm emptyFS "missing/dir/n" 384 tRef [1]).2.2
        = .error FsError.notExist ∧
    ((Safe.WriteFilePerm emptyFS "missing/dir/n" 384 tRef [1]).1).lookup "missing/dir/n"
        = emptyFS.lookup "missing/dir/n" ∧
    ((Safe.WriteFilePerm emptyFS "missing/dir/n" 384 tRef [1]).1).lookup
        ("missing/dir/n" ++ AltNamePostfix)
        = emptyFS.lookup ("missing/dir/n" ++ AltNamePostfix) ∧
    ((Safe.WriteFilePerm emptyFS "missing/dir/n" 384 tRef [1]).1).inodes
        = emptyFS.inodes ∧
    ∀ p ∈ (Safe.WriteFilePerm emptyFS "missing/dir/n" 384 tRef [1]).2.1,
      ∀ o n, p.1 ≠ WOp.lnOp o n :=
  c7_write_failure_no_link emptyFS "missing/dir/n" 384 tRef [1] FsError.notExist (by rfl)

/-- C8 (amended): for every invocation of WriteFilePerm on a state in which
the Temporary File name is not an existing non-empty directory, on every
exit path (success or error) the Temporary File name no longer exists as a
directory entry when the function returns.  (An empty directory at the
Temporary File name is deleted by the deferred os.Remove, so only the
non-empty-directory case is excluded.) -/
theorem c8_temp_removed (fs : FS) (name : String) (perm : Nat) (t : GoTime)
    (data : Bytes)
    (hnd : fs.lookup (tmpName name t) = some Entry.dir →
      fs.isNonemptyDir (tmpName name t) = false) :
    ((Safe.WriteFilePerm fs name perm t data).1).lookup (tmpName name t) = none := by
  cases hc : fs.lookup (tmpName name t) with
  | none =>
    cases hdir : createDirOk fs (tmpName name t) with
    | false =>
      have he : (Safe.write fs (tmpName name t) perm data).2.2 = .error .notExist := by
        rw [Safe.write, osCreate_badparent hc hdir]
      rw [WriteFilePerm_err_eq he]
      dsimp only
      rw [osRemove_absent hc]
      exact hc
    | true =>
      have hw : (Safe.write fs (tmpName name t) perm data).2.2 = .ok () := by
        rw [Safe.write, osCreate_alloc hc hdir]
      rw [WriteFilePerm_ok_eq hw]
      dsimp only
      have hWl : ((Safe.write fs (tmpName name t) perm data).1).lookup (tmpName name t)
          = some (Entry.file fs.nextIno) := by
        rw [Safe.write, osCreate_alloc hc hdir]
        simp
      have hSl := safelink_lookup_preserved (Safe.write fs (tmpName name t) perm data).1
        (tmpName name t) (name ++ AltNamePostfix) name
        (tmpName_ne_alt name t) (tmpName_ne_name name t)
      rw [hWl] at hSl
      rw [osRemove_file hSl]
      exact FS.lookup_rm_self _ _
  | some en =>
    cases en with
    | dir =>
      have hempty : fs.isNonemptyDir (tmpName name t) = false := hnd hc
      have he : (Safe.write fs (tmpName name t) perm data).2.2 = .error .other := by
        rw [Safe.write, osCreate_isdir hc]
      rw [WriteFilePerm_err_eq he]
      dsimp only
      have hrm : osRemove fs (tmpName name t) = (fs.rm (tmpName name t), .ok ()) := by
        simp [osRemove, hc, hempty, FS.rm]
      rw [hrm]
      dsimp only
      exact FS.lookup_rm_self fs _
    | file i =>
      have hw : (Safe.write fs (tmpName name t) perm data).2.2 = .ok () := by
        rw [Safe.write, osCreate_trunc hc]
      rw [WriteFilePerm_ok_eq hw]
      dsimp only
      have hWl : ((Safe.write fs (tmpName name t) perm data).1).lookup (tmpName name t)
          = some (Entry.file i) := by
        rw [Safe.write, osCreate_trunc hc]
        simp [hc]
      have hSl := safelink_lookup_preserved (Safe.write fs (tmpName name t) perm data).1
        (tmpName name t) (name ++ AltNamePostfix) name
        (tmpName_ne_alt name t) (tmpName_ne_name name t)
      rw [hWl] at hSl
      rw [osRemove_file hSl]
      exact FS.lookup_rm_self _ _

/-- A filesystem in which the Temporary File name that WriteFilePerm would
use at the reference time exists as an empty directory. -/
def c8fsEmptyDir : FS := ⟨[(tmpName "testfile" tRef, Entry.dir)], [], 0⟩

/-- Witness for C8 at a concrete input covering the boundary the amendment
keeps: the temporary name is an existing empty directory, the write fails,
and the deferred removal still deletes the entry, so the temporary name is
gone when WriteFilePerm returns. -/
theorem c8_witness :
    ((Safe.WriteFilePerm c8fsEmptyDir "testfile" 384 tRef [1]).1).lookup
      (tmpName "testfile" tRef) = none :=
  c8_temp_removed c8fsEmptyDir "testfile" 384 tRef [1] (by decide)

/-- A filesystem in which the Temporary File name that WriteFilePerm would
use at the reference time already exists as a non-empty directory. -/
def c8fs : FS :=
  ⟨[(tmpName "testfile" tRef, Entry.dir),
    (tmpName "testfile" tRef ++ "/x", Entry.file 0)], [(0, [])], 1⟩

/-- C8 counterexample: when the Temporary File name is an existing non-empty
directory, creating the temporary file fails (EISDIR), the deferred
os.Remove also fails (ENOTEMPTY) and its error is discarded, so the
Temporary File name still exists as a directory entry when WriteFilePerm
returns — the claim asserts it never does on any exit path. -/
theorem c8_counterexample :
    (Safe.WriteFilePerm c8fs "testfile" 384 tRef [1]).2.2 = .error FsError.other ∧
    ((Safe.WriteFilePerm c8fs "testfile" 384 tRef [1]).1).lookup
      (tmpName "testfile" tRef) = some Entry.dir :=
  ⟨rfl, rfl⟩

section TimestampInjectivity

/-- Decimal value of a digit-character string, used to invert padDigits. -/
def unpadVal (cs : List Char) : Nat :=
  List.foldl (fun a c => a * 10 + (c.toNat - 48)) 0 cs

theorem digitChar_toNat : ∀ d : Fin 10, (Nat.digitChar d.val).toNat = 48 + d.val := by
  decide

theorem unpadVal_snoc (xs : List Char) (c : Char) :
    unpadVal (xs ++ [c]) = unpadVal xs * 10 + (c.toNat - 48) := by
  simp [unpadVal, List.foldl_append]

theorem unpadVal_padDigits (w n : Nat) : unpadVal (padDigits w n) = n % 10 ^ w := by
  induction w generalizing n with
  | zero => simp [padDigits, unpadVal, Nat.mod_one]
  | succ w ih =>
    rw [padDigits, unpadVal_snoc, ih]
    have hdig : (Nat.digitChar (n % 10)).toNat = 48 + n % 10 :=
      digitChar_toNat ⟨n % 10, Nat.mod_lt _ (by norm_num)⟩
    rw [hdig]
    have hmul : n % (10 * 10 ^ w) = n % 10 + 10 * (n / 10 % 10 ^ w) := Nat.mod_mul
    rw [pow_succ, Nat.mul_comm (10 ^ w) 10, hmul]
    omega

theorem padDigits_inj {w a b : Nat} (ha : a < 10 ^ w) (hb : b < 10 ^ w)
    (h : padDigits w a = padDigits w b) : a = b := by
  have hu := congrArg unpadVal h
  rwa [unpadVal_padDigits, unpadVal_padDigits, Nat.mod_eq_of_lt ha,
    Nat.mod_eq_of_lt hb] at hu

theorem peelPad {w a b : Nat} {r1 r2 : List Char} (ha : a < 10 ^ w) (hb : b < 10 ^ w)
    (h : padDigits w a ++ r1 = padDigits w b ++ r2) : a = b ∧ r1 = r2 := by
  have hl : (padDigits w a).length = (padDigits w b).length := by simp
  obtain ⟨h1, h2⟩ := List.append_inj h hl
  exact ⟨padDigits_inj ha hb h1, h2⟩

set_option maxHeartbeats 1000000 in
/-- The formatted timestamp determines every calendar field and the
microsecond truncation of the nanoseconds, for in-range fields. -/
theorem fmtTimestampChars_inj {t1 t2 : GoTime}
    (hy1 : t1.year < 10 ^ 4) (hmo1 : t1.month < 10 ^ 2) (hd1 : t1.day < 10 ^ 2)
    (hh1 : t1.hour < 10 ^ 2) (hmi1 : t1.minute < 10 ^ 2) (hs1 : t1.sec < 10 ^ 2)
    (hn1 : t1.nano < 10 ^ 9)
    (hy2 : t2.year < 10 ^ 4) (hmo2 : t2.month < 10 ^ 2) (hd2 : t2.day < 10 ^ 2)
    (hh2 : t2.hour < 10 ^ 2) (hmi2 : t2.minute < 10 ^ 2) (hs2 : t2.sec < 10 ^ 2)
    (hn2 : t2.nano < 10 ^ 9)
    (h : fmtTimestampChars t1 = fmtTimestampChars t2) :
    t1.year = t2.year ∧ t1.month = t2.month ∧ t1.day = t2.day ∧ t1.hour = t2.hour ∧
    t1.minute = t2.minute ∧ t1.sec = t2.sec ∧ t1.nano / 1000 = t2.nano / 1000 := by
  have hm1 : t1.nano / 1000 < 10 ^ 6 := by norm_num at hn1 ⊢; omega
  have hm2 : t2.nano / 1000 < 10 ^ 6 := by norm_num at hn2 ⊢; omega
  rw [fmtTimestampChars, fmtTimestampChars] at h
  simp only [List.cons_append, List.nil_append, List.cons.injEq, true_and] at h
  obtain ⟨hy, h⟩ := peelPad hy1 hy2 h
  simp only [List.cons.injEq, true_and] at h
  obtain ⟨hmo, h⟩ := peelPad hmo1 hmo2 h
  simp only [List.cons.injEq, true_and] at h
  obtain ⟨hd, h⟩ := peelPad hd1 hd2 h
  simp only [List.cons.injEq, true_and] at h
  obtain ⟨hh, h⟩ := peelPad hh1 hh2 h
  simp only [List.cons.injEq, true_and] at h
  obtain ⟨hmi, h⟩ := peelPad hmi1 hmi2 h
  simp only [List.cons.injEq, true_and] at h
  obtain ⟨hs, h⟩ := peelPad hs1 hs2 h
  simp only [List.cons.injEq, true_and] at h
  have hmicro := padDigits_inj hm1 hm2 (by simpa using h)
  exact ⟨hy, hmo, hd, hh, hmi, hs, hmicro⟩

end TimestampInjectivity

/-- C9 (amended): within a single process, two WriteFile calls on the same
name whose observed times (with in-range calendar fields) differ in some
field of the formatted timestamp — that is, in a calendar field or in the
microsecond truncation of the nanoseconds — generate distinct Temporary
File names; calls that fall within the same formatted microsecond generate
the same Temporary File name. -/
theorem c9_tmpname_injective (name : String) (t1 t2 : GoTime)
    (hy1 : t1.year < 10 ^ 4) (hmo1 : t1.month < 10 ^ 2) (hd1 : t1.day < 10 ^ 2)
    (hh1 : t1.hour < 10 ^ 2) (hmi1 : t1.minute < 10 ^ 2) (hs1 : t1.sec < 10 ^ 2)
    (hn1 : t1.nano < 10 ^ 9)
    (hy2 : t2.year < 10 ^ 4) (hmo2 : t2.month < 10 ^ 2) (hd2 : t2.day < 10 ^ 2)
    (hh2 : t2.hour < 10 ^ 2) (hmi2 : t2.minute < 10 ^ 2) (hs2 : t2.sec < 10 ^ 2)
    (hn2 : t2.nano < 10 ^ 9)
    (hne : (t1.year, t1.month, t1.day, t1.hour, t1.minute, t1.sec, t1.nano / 1000)
         ≠ (t2.year, t2.month, t2.day, t2.hour, t2.minute, t2.sec, t2.nano / 1000)) :
    tmpName name t1 ≠ tmpName name t2 := by
  intro he
  apply hne
  have hd := congrArg String.data he
  rw [tmpName, tmpName, String.data_append, String.data_append] at hd
  rw [show (fmtTimestamp t1).data = fmtTimestampChars t1 from rfl,
    show (fmtTimestamp t2).data = fmtTimestampChars t2 from rfl] at hd
  have hchars := List.append_cancel_left hd
  obtain ⟨h1, h2, h3, h4, h5, h6, h7⟩ := fmtTimestampChars_inj hy1 hmo1 hd1 hh1 hmi1
    hs1 hn1 hy2 hmo2 hd2 hh2 hmi2 hs2 hn2 hchars
  rw [h1, h2, h3, h4, h5, h6, h7]

/-- Witness for the amended C9 at concrete inputs: two calls one second
apart generate distinct Temporary File names. -/
theorem c9_witness :
    tmpName "testfile" ⟨2021, 1, 2, 3, 4, 5, 678901000⟩
      ≠ tmpName "testfile" ⟨2021, 1, 2, 3, 4, 6, 678901000⟩ :=
  c9_tmpname_injective "testfile" _ _ (by decide) (by decide) (by decide) (by decide)
    (by decide) (by decide) (by decide) (by decide) (by decide) (by decide)
    (by decide) (by decide) (by decide) (by decide) (by decide)

/-- C9 counterexample: two distinct times within the same process — two
time.Now() readings 999 nanoseconds apart, hence two distinct WriteFile
calls — produce the identical Temporary File name, because the timestamp
format truncates nanoseconds to microseconds; the claim asserts any two
calls on the same name generate distinct Temporary File names. -/
theorem c9_counterexample :
    (⟨2021, 1, 2, 3, 4, 5, 678901000⟩ : GoTime) ≠ ⟨2021, 1, 2, 3, 4, 5, 678901999⟩ ∧
    tmpName "testfile" ⟨2021, 1, 2, 3, 4, 5, 678901000⟩
      = tmpName "testfile" ⟨2021, 1, 2, 3, 4, 5, 678901999⟩ :=
  ⟨by decide, rfl⟩

theorem allocFS_readInode_ne (fs : FS) (nm : String) {i : Ino} (h : i ≠ fs.nextIno) :
    (allocFS fs nm).readInode i = fs.readInode i := by
  simp [allocFS, FS.readInode, lookupKey_cons_ne (Ne.symm h)]

theorem ioutilReadFile_ok {fs : FS} {nm : String} {k : Ino}
    (h : fs.lookup nm = some (Entry.file k)) :
    ioutilReadFile fs nm = .ok (fs.readInode k) := by
  simp [ioutilReadFile, h]

/-- C1: for every write attempt on a name whose public and shadow links were
established by a prior successful WriteFile (both names bound to one shared
inode, the temporary name fresh, inode numbers in range), and for every
point at which the write sequence may be interrupted — after any OS call of
the sequence, which covers every subset of temp-file sync, link-to-shadow
recovery, link-to-shadow new, and link-to-public — at least one of the
Public Name and the Shadow Name resolves to the complete prior content or
the complete current content, never to a partially written or mixed file. -/
theorem c1_crash_invariant (fs : FS) (name : String) (perm : Nat) (t : GoTime)
    (data : Bytes) (i : Ino)
    (hpub : fs.lookup name = some (Entry.file i))
    (hsh : fs.lookup (name ++ AltNamePostfix) = some (Entry.file i))
    (htmp : fs.lookup (tmpName name t) = none)
    (hfresh : ∀ p ∈ fs.dirents, ∀ j, p.2 = Entry.file j → j < fs.nextIno) :
    ∀ p ∈ (Safe.WriteFilePerm fs name perm t data).2.1,
      ioutilReadFile p.2 name = .ok (fs.readInode i) ∨
      ioutilReadFile p.2 name = .ok data ∨
      ioutilReadFile p.2 (name ++ AltNamePostfix) = .ok (fs.readInode i) ∨
      ioutilReadFile p.2 (name ++ AltNamePostfix) = .ok data := by
  have hta : tmpName name t ≠ name ++ AltNamePostfix := tmpName_ne_alt name t
  have htn : tmpName name t ≠ name := tmpName_ne_name name t
  have han : name ++ AltNamePostfix ≠ name := alt_ne_name name
  have hmem : (name, Entry.file i) ∈ fs.dirents := lookupKey_mem hpub
  have hlt : i < fs.nextIno := hfresh _ hmem i rfl
  have hij : i ≠ fs.nextIno := Nat.ne_of_lt hlt
  cases hdir : createDirOk fs (tmpName name t) with
  | false =>
    have he : (Safe.write fs (tmpName name t) perm data).2.2 = .error .notExist := by
      rw [Safe.write, osCreate_badparent htmp hdir]
    rw [WriteFilePerm_err_eq he]
    dsimp only
    rw [osRemove_absent htmp]
    dsimp only
    intro p hp
    simp only [List.mem_cons, List.not_mem_nil, or_false] at hp
    rcases hp with rfl | rfl <;>
      exact Or.inl (by rw [ioutilReadFile_ok hpub])
  | true =>
    set fsA := allocFS fs (tmpName name t) with hfsA
    set fsW := fsA.setInode fs.nextIno data with hfsW
    set fs3 := fsW.rm name with hfs3
    set fs4 := fs3.addF name i with hfs4
    set fs5 := fs4.rm (name ++ AltNamePostfix) with hfs5
    set fs6 := fs5.addF (name ++ AltNamePostfix) fs.nextIno with hfs6
    set fs7 := fs6.rm name with hfs7
    set fs8 := fs7.addF name fs.nextIno with hfs8
    have hwrun : Safe.write fs (tmpName name t) perm data =
        (fsW, [(WOp.createOp (tmpName name t), fsA), (WOp.chmodOp (tmpName name t), fsA),
               (WOp.writeOp (tmpName name t), fsW), (WOp.syncOp (tmpName name t), fsW)],
         .ok ()) := by
      rw [Safe.write, osCreate_alloc htmp hdir]
    have A_name : fsA.lookup name = some (Entry.file i) := by
      rw [hfsA, allocFS_lookup_ne fs (Ne.symm htn)]; exact hpub
    have A_alt : fsA.lookup (name ++ AltNamePostfix) = some (Entry.file i) := by
      rw [hfsA, allocFS_lookup_ne fs (Ne.symm hta)]; exact hsh
    have A_rdi : fsA.readInode i = fs.readInode i := by
      rw [hfsA]; exact allocFS_readInode_ne fs _ hij
    have W_name : fsW.lookup name = some (Entry.file i) := by
      rw [hfsW, FS.lookup_setInode]; exact A_name
    have W_alt : fsW.lookup (name ++ AltNamePostfix) = some (Entry.file i) := by
      rw [hfsW, FS.lookup_setInode]; exact A_alt
    have W_tmp : fsW.lookup (tmpName name t) = some (Entry.file fs.nextIno) := by
      rw [hfsW, FS.lookup_setInode, hfsA]; exact allocFS_lookup_self fs _
    have W_rdi : fsW.readInode i = fs.readInode i := by
      rw [hfsW, FS.readInode_setInode_ne fsA hij]; exact A_rdi
    have W_rdj : fsW.readInode fs.nextIno = data := by
      rw [hfsW]; exact FS.readInode_setInode_self fsA _ _
    have F3_alt : fs3.lookup (name ++ AltNamePostfix) = some (Entry.file i) := by
      rw [hfs3, FS.lookup_rm_ne fsW han]; exact W_alt
    have F4_name : fs4.lookup name = some (Entry.file i) := FS.lookup_addF_self fs3 name i
    have F4_alt : fs4.lookup (name ++ AltNamePostfix) = some (Entry.file i) := by
      rw [hfs4, FS.lookup_addF_ne fs3 han]; exact F3_alt
    have F4_tmp : fs4.lookup (tmpName name t) = some (Entry.file fs.nextIno) := by
      rw [hfs4, FS.lookup_addF_ne fs3 htn, hfs3, FS.lookup_rm_ne fsW htn]; exact W_tmp
    have F5_name : fs5.lookup name = some (Entry.file i) := by
      rw [hfs5, FS.lookup_rm_ne fs4 (Ne.symm han)]; exact F4_name
    have F6_name : fs6.lookup name = some (Entry.file i) := by
      rw [hfs6, FS.lookup_addF_ne fs5 (Ne.symm han)]; exact F5_name
    have F6_alt : fs6.lookup (name ++ AltNamePostfix) = some (Entry.file fs.nextIno) :=
      FS.lookup_addF_self fs5 _ _
    have F6_tmp : fs6.lookup (tmpName name t) = some (Entry.file fs.nextIno) := by
      rw [hfs6, FS.lookup_addF_ne fs5 hta, hfs5, FS.lookup_rm_ne fs4 hta]; exact F4_tmp
    have F7_alt : fs7.lookup (name ++ AltNamePostfix) = some (Entry.file fs.nextIno) := by
      rw [hfs7, FS.lookup_rm_ne fs6 han]; exact F6_alt
    have F7_tmp : fs7.lookup (tmpName name t) = some (Entry.file fs.nextIno) := by
      rw [hfs7, FS.lookup_rm_ne fs6 htn]; exact F6_tmp
    have F8_name : fs8.lookup name = some (Entry.file fs.nextIno) :=
      FS.lookup_addF_self fs7 _ _
    have F8_tmp : fs8.lookup (tmpName name t) = some (Entry.file fs.nextIno) := by
      rw [hfs8, FS.lookup_addF_ne fs7 htn]; exact F7_tmp
    have hl1 : Safe.link fsW (name ++ AltNamePostfix) name =
        (fs4, [(WOp.rmOp name, fs3), (WOp.lnOp (name ++ AltNamePostfix) name, fs4)],
         .ok ()) := by
      rw [hfs4, hfs3]
      exact link_run han W_alt (Or.inr ⟨i, W_name⟩)
    have hl2 : Safe.link fs4 (tmpName name t) (name ++ AltNamePostfix) =
        (fs6, [(WOp.rmOp (name ++ AltNamePostfix), fs5),
               (WOp.lnOp (tmpName name t) (name ++ AltNamePostfix), fs6)], .ok ()) := by
      rw [hfs6, hfs5]
      exact link_run hta F4_tmp (Or.inr ⟨i, F4_alt⟩)
    have hl3 : Safe.link fs6 (name ++ AltNamePostfix) name =
        (fs8, [(WOp.rmOp name, fs7), (WOp.lnOp (name ++ AltNamePostfix) name, fs8)],
         .ok ()) := by
      rw [hfs8, hfs7]
      exact link_run han F6_alt (Or.inr ⟨i, F6_name⟩)
    have hsl : Safe.safelink fsW (tmpName name t) (name ++ AltNamePostfix) name =
        (fs8, [(WOp.rmOp name, fs3), (WOp.lnOp (name ++ AltNamePostfix) name, fs4),
               (WOp.rmOp (name ++ AltNamePostfix), fs5),
               (WOp.lnOp (tmpName name t) (name ++ AltNamePostfix), fs6),
               (WOp.rmOp name, fs7), (WOp.lnOp (name ++ AltNamePostfix) name, fs8)],
         .ok ()) := by
      rw [Safe.safelink, hl1]
      dsimp only
      rw [hl2]
      dsimp only
      rw [hl3]
      rfl
    have hw : (Safe.write fs (tmpName name t) perm data).2.2 = .ok () := by rw [hwrun]
    rw [WriteFilePerm_ok_eq hw, hwrun]
    dsimp only
    rw [hsl]
    dsimp only
    rw [osRemove_file F8_tmp]
    dsimp only
    intro p hp
    simp only [List.mem_append, List.mem_cons, List.not_mem_nil, or_false] at hp
    rcases hp with ((rfl | rfl | rfl | rfl) | (rfl | rfl | rfl | rfl | rfl | rfl)) | rfl
    · exact Or.inl (by rw [ioutilReadFile_ok A_name, A_rdi])
    · exact Or.inl (by rw [ioutilReadFile_ok A_name, A_rdi])
    · exact Or.inl (by rw [ioutilReadFile_ok W_name, W_rdi])
    · exact Or.inl (by rw [ioutilReadFile_ok W_name, W_rdi])
    · refine Or.inr (Or.inr (Or.inl ?_))
      rw [ioutilReadFile_ok F3_alt]
      exact congrArg Except.ok W_rdi
    · exact Or.inl (by rw [ioutilReadFile_ok F4_name]; exact congrArg Except.ok W_rdi)
    · exact Or.inl (by rw [ioutilReadFile_ok F5_name]; exact congrArg Except.ok W_rdi)
    · exact Or.inl (by rw [ioutilReadFile_ok F6_name]; exact congrArg Except.ok W_rdi)
    · refine Or.inr (Or.inr (Or.inr ?_))
      rw [ioutilReadFile_ok F7_alt]
      exact congrArg Except.ok W_rdj
    · refine Or.inr (Or.inl ?_)
      rw [ioutilReadFile_ok F8_name]
      exact congrArg Except.ok W_rdj
    · refine Or.inr (Or.inl ?_)
      have F9_name : (fs8.rm (tmpName name t)).lookup name
          = some (Entry.file fs.nextIno) := by
        rw [FS.lookup_rm_ne fs8 (Ne.symm htn)]; exact F8_name
      rw [ioutilReadFile_ok F9_name]
      exact congrArg Except.ok W_rdj

/-- A filesystem holding a prior successful write of testfile: both names
bound to the same inode holding byte [1]. -/
def c1fs : FS := ⟨[("testfile", Entry.file 0), ("testfile.1", Entry.file 0)], [(0, [1])], 1⟩

/-- Witness for C1 at a concrete input: the state reached right after the
write sequence's first unlink (the fifth OS call of the run) still resolves
one of the two names to the complete old or new content. -/
theorem c1_witness :
    ioutilReadFile ((Safe.WriteFilePerm c1fs "testfile" 384 tRef [2]).2.1.getD 4
      (WOp.rmOp "", emptyFS)).2 "testfile" = .ok [1] ∨
    ioutilReadFile ((Safe.WriteFilePerm c1fs "testfile" 384 tRef [2]).2.1.getD 4
      (WOp.rmOp "", emptyFS)).2 "testfile" = .ok [2] ∨
    ioutilReadFile ((Safe.WriteFilePerm c1fs "testfile" 384 tRef [2]).2.1.getD 4
      (WOp.rmOp "", emptyFS)).2 ("testfile" ++ AltNamePostfix) = .ok [1] ∨
    ioutilReadFile ((Safe.WriteFilePerm c1fs "testfile" 384 tRef [2]).2.1.getD 4
      (WOp.rmOp "", emptyFS)).2 ("testfile" ++ AltNamePostfix) = .ok [2] := by
  have h := c1_crash_invariant c1fs "testfile" 384 tRef [2] 0 rfl rfl rfl
    (by intro p hp j hj
        simp only [c1fs, List.mem_cons, List.not_mem_nil, or_false] at hp
        rcases hp with rfl | rfl <;> (cases hj; decide))
  exact h _ (by decide)

/-- A filesystem holding a pre-existing file testfile not created by this
package: the public name exists, the shadow name does not. -/
def c10fs : FS := ⟨[("testfile", Entry.file 0)], [(0, [1, 2, 3])], 1⟩

/-- C10: when WriteFile runs on a name where the Public Name exists but the
Shadow Name does not, the first safelink step unlinks the Public Name and
the failed hard link from the absent shadow is treated as success, so the
run reaches a traced state, after an unlink of the public name, in which
neither the Public Name nor the Shadow Name exists — an interruption there
loses the pre-existing content — and the write nevertheless reports
success. -/
theorem c10_preexisting_file_window :
    c10fs.lookup "testfile" = some (Entry.file 0) ∧
    c10fs.lookup ("testfile" ++ AltNamePostfix) = none ∧
    ((Safe.WriteFilePerm c10fs "testfile" 384 tRef [9]).2.1.any
      (fun p => decide (p.1 = WOp.rmOp "testfile" ∧ p.2.lookup "testfile" = none ∧
        p.2.lookup ("testfile" ++ AltNamePostfix) = none))) = true ∧
    (Safe.WriteFilePerm c10fs "testfile" 384 tRef [9]).2.2 = .ok () :=
  ⟨rfl, rfl, rfl, rfl⟩
